import Mathlib

/-!
Shallow embedding of the CDM backend code-generation pipeline
(andrey-dru-me1/llvm-project-cdm) together with the MLIR LSP source-manager
utilities that live in the same tree.

The definitions mirror the C++ sources:
 * `CDMMCInstLower.cpp` / `CDMMCInstLower.h` — the instruction lowerer
   (`Lower`, `LowerOperand`, `LowerSymbolOperand`);
 * `CDMFrameLowering.h` — `eliminateCallFramePseudoInstr` (`MBB.erase(MI)`);
 * `CDMRegisterInfo.h` — `eliminateFrameIndex` (declaration only; the body is
   modelled from the specification, see below);
 * `SourceMgrUtils.cpp` — `convertTokenLocToRange`, `lexLocStringTok`,
   `gatherIncludeFiles`.

Aborting paths (`llvm_unreachable`, failing `assert`) are modelled by
returning `none`; machine integers are modelled by `Nat`/`Int` with explicit
reduction modulo `2 ^ 32` where the C++ type is `unsigned int`.
-/

namespace CDM

/-- A machine-instruction operand, the tagged variant over
`{Register, Immediate, FrameIndex, BasicBlockRef, GlobalSymbolRef, RegisterMask}`
that the lowering stage dispatches on (`MachineOperand::getType()`).
The recorded offsets (`MachineOperand::getOffset()`) are 64-bit signed. -/
inductive MachineOperand where
  | Register (r : Nat)
  | Immediate (v : Int)
  | FrameIndex (slot : Nat) (off : Int)
  | BasicBlockRef (label : Nat)
  | GlobalSymbolRef (sym : Nat) (off : Int)
  | RegisterMask
deriving DecidableEq, Repr

/-- An MC-level symbol expression: `MCSymbolRefExpr`, `MCConstantExpr`, and
`MCBinaryExpr::createAdd`. -/
inductive MCExpr where
  | symbolRef (sym : Nat)
  | const (v : Int)
  | add (lhs rhs : MCExpr)
deriving DecidableEq, Repr

/-- An `MCOperand`: default-constructed (`MCOperand()`, invalid), a register,
an immediate, or an expression. -/
inductive MCOperand where
  | invalid
  | reg (r : Nat)
  | imm (v : Int)
  | expr (e : MCExpr)
deriving DecidableEq, Repr

/-- `MCOperand::isValid()`: everything except the default-constructed
operand. -/
def MCOperand.isValid : MCOperand → Bool
  | .invalid => false
  | _ => true

/-- A machine instruction: opcode plus ordered operand list. -/
structure MachineInstr where
  opcode : Nat
  operands : List MachineOperand
deriving DecidableEq, Repr

/-- An `MCInst` (emittable instruction): opcode plus `MCOperand` list. -/
structure MCInst where
  opcode : Nat
  operands : List MCOperand
deriving DecidableEq, Repr

/-- `Offset += MO.getOffset()` where `Offset` has C++ type `unsigned int`
(32 bits) and `getOffset()` returns `int64_t`: the sum is converted back to
`unsigned int`, i.e. reduced modulo `2 ^ 32`. -/
def uintAdd (off32 : Nat) (off : Int) : Nat :=
  (((off32 : Int) + off) % 4294967296).toNat

/-- `CDMMCInstLower::LowerSymbolOperand` (CDMMCInstLower.cpp:47-89).
`Offset` has C++ type `unsigned int`.  The `switch` resolves the symbol and,
for a global address, accumulates the operand's recorded offset into `Offset`;
unhandled kinds hit `llvm_unreachable` (modelled as `none`).  After the
switch, `if (Offset)` guards `assert(Offset > 0)` (a failing assert is
modelled as `none`) and wraps the symbol in an addition with the constant. -/
def LowerSymbolOperand (MO : MachineOperand) (Offset : Nat) : Option MCOperand :=
  match
    (match MO with
     | .GlobalSymbolRef g off => some (g, uintAdd Offset off)
     | .BasicBlockRef b => some (b, Offset)
     | _ => none)
  with
  | none => none
  | some (symbol, Offset) =>
    let Expr := MCExpr.symbolRef symbol
    if Offset ≠ 0 then
      -- assert(Offset > 0); `Offset` is unsigned, so this is `Offset ≠ 0`.
      if Offset > 0 then
        some (.expr (.add Expr (.const (Offset : Int))))
      else none
    else
      some (.expr Expr)

/-- `CDMMCInstLower::LowerOperand` (CDMMCInstLower.cpp:29-46): dispatch on
the operand kind; the `default` case is `llvm_unreachable` (`none`); a
`RegisterMask` falls through to `return MCOperand()` (the invalid operand). -/
def LowerOperand (MO : MachineOperand) (offset : Nat) : Option MCOperand :=
  match MO with
  | .Register r => some (.reg r)
  | .Immediate v => some (.imm v)
  | .RegisterMask => some .invalid
  | .BasicBlockRef _ => LowerSymbolOperand MO offset
  | .GlobalSymbolRef _ _ => LowerSymbolOperand MO offset
  | .FrameIndex _ _ => none

/-- The loop body of `CDMMCInstLower::Lower` (CDMMCInstLower.cpp:20-27):
each operand is lowered with `LowerOperand(MO)` — the declared default
argument is `offset = 0` (CDMMCInstLower.h) — and added to the output only
`if (MCOp.isValid())`.  An aborting operand aborts the whole lowering. -/
def lowerOperands (ops : List MachineOperand) : Option (List MCOperand) :=
  match ops with
  | [] => some []
  | MO :: rest =>
    match LowerOperand MO 0 with
    | none => none
    | some MCOp =>
      match lowerOperands rest with
      | none => none
      | some tail => some (if MCOp.isValid then MCOp :: tail else tail)

/-- `CDMMCInstLower::Lower` (CDMMCInstLower.cpp:17-28): copy the opcode
(`OutMI.setOpcode(MI->getOpcode())`) and lower the operands in order. -/
def Lower (MI : MachineInstr) : Option MCInst :=
  match lowerOperands MI.operands with
  | none => none
  | some ops => some ⟨MI.opcode, ops⟩

/-- The operand kinds the lowering stage handles (everything except
`FrameIndex`, which falls into `LowerOperand`'s `default: llvm_unreachable`). -/
def MachineOperand.isHandled : MachineOperand → Bool
  | .FrameIndex _ _ => false
  | _ => true

/-- Is this operand a register mask? -/
def MachineOperand.isRegMask : MachineOperand → Bool
  | .RegisterMask => true
  | _ => false

/-- The operand kinds `LowerSymbolOperand`'s `switch` handles: basic-block
references and global addresses; everything else falls into its
`default: llvm_unreachable`. -/
def MachineOperand.isSymbolKind : MachineOperand → Bool
  | .BasicBlockRef _ => true
  | .GlobalSymbolRef _ _ => true
  | _ => false

/-- `CDMFrameLowering::eliminateCallFramePseudoInstr` (CDMFrameLowering.h):
the body is `return MBB.erase(MI);`.  A basic block is modelled as the list
of its instructions and the iterator `MI` as an index into it; `erase`
removes the pointed-to instruction and returns the iterator to the following
one, which after removal sits at the same index. -/
def eliminateCallFramePseudoInstr (MBB : List MachineInstr) (MI : Nat) :
    List MachineInstr × Nat :=
  (MBB.eraseIdx MI, MI)

/-- Modelled from the spec: the body of `CDMRegisterInfo::eliminateFrameIndex`
is not among the sources (CDMRegisterInfo.h only declares it), so the
frame-layout context it reads is taken from §3/§4.2 of the specification:
the per-function mapping from frame index to byte offset, the frame base
register, the architecture's encodable immediate range, plus the scratch
register and opcode used to materialize an out-of-range address. -/
structure FrameContext where
  frameLayout : Nat → Int
  frameBase : Nat
  immMin : Int
  immMax : Int
  scratchReg : Nat
  addrMatOpcode : Nat

/-- Whether a concrete offset fits the architecture's encodable immediate
range. -/
def inImmRange (FC : FrameContext) (v : Int) : Bool :=
  decide (FC.immMin ≤ v) && decide (v ≤ FC.immMax)

/-- Replace the operand at index `i` by the operands `newOps`. -/
def spliceOperands (ops : List MachineOperand) (i : Nat)
    (newOps : List MachineOperand) : List MachineOperand :=
  ops.take i ++ newOps ++ ops.drop (i + 1)

/-- Modelled from the spec: `CDMRegisterInfo::eliminateFrameIndex` (§4.2, §8);
the body is absent from the sources.  Given the instruction, the index of its
`FrameIndex(slot, offset)` operand and the local stack adjustment `SPAdj`,
rewrite the operand to `Register(base) + Immediate(concrete)` with
`concrete = frame_layout[slot] + offset + SPAdj`; if `concrete` exceeds the
encodable immediate range, insert one address-materialization instruction
immediately before and redirect the operand to the materialized register.
The result is the list of instructions replacing the original one. -/
def eliminateFrameIndex (FC : FrameContext) (MI : MachineInstr)
    (FIOperandNum : Nat) (SPAdj : Int) : List MachineInstr :=
  match MI.operands.get? FIOperandNum with
  | some (.FrameIndex slot off) =>
    let concrete := FC.frameLayout slot + off + SPAdj
    if inImmRange FC concrete then
      [⟨MI.opcode,
        spliceOperands MI.operands FIOperandNum
          [.Register FC.frameBase, .Immediate concrete]⟩]
    else
      [⟨FC.addrMatOpcode,
        [.Register FC.scratchReg, .Register FC.frameBase, .Immediate concrete]⟩,
       ⟨MI.opcode,
        spliceOperands MI.operands FIOperandNum
          [.Register FC.scratchReg, .Immediate 0]⟩]
  | _ => [MI]

/-- The effective address denoted by the `Register + Immediate` operand pair
starting at index `i`, under a register valuation. -/
def effAddr (regVal : Nat → Int) (ops : List MachineOperand) (i : Nat) :
    Option Int :=
  match ops.get? i, ops.get? (i + 1) with
  | some (.Register r), some (.Immediate v) => some (regVal r + v)
  | _, _ => none

/-- Semantics of the address-materialization instruction: it writes
`regVal base + imm` into its destination register and changes nothing else;
any other instruction leaves the valuation unchanged. -/
def stepAddrMat (FC : FrameContext) (regVal : Nat → Int)
    (inst : MachineInstr) : Nat → Int :=
  if inst.opcode = FC.addrMatOpcode then
    match inst.operands with
    | [.Register d, .Register b, .Immediate v] =>
      fun r => if r = d then regVal b + v else regVal r
    | _ => regVal
  else regVal

end CDM

namespace SourceMgrUtils

/-- The character the C++ code reads at position `p` of the buffer; reading
at or past the end yields the NUL terminator. -/
def charAt (buf : List Char) (p : Nat) : Char :=
  (buf.drop p).headD '\x00'

/-- `llvm::isHexDigit`. -/
def isHexDigit (c : Char) : Bool :=
  c.isDigit || ('a' ≤ c && c ≤ 'f') || ('A' ≤ c && c ≤ 'F')

/-- `lexLocStringTok` (SourceMgrUtils.cpp:25-46), as the number of characters
consumed from `curPtr`: loop while reading non-NUL characters; a terminal
character from `"\"\n\v\f"` stops after itself; a backslash followed by a
known escape or two hex digits consumes the escape and continues, otherwise
stops right after the backslash; hitting the NUL terminator stops before it
(`return curPtr - 1`).  The end of the list stands for the NUL terminator. -/
def lexLocStringTok : List Char → Nat
  | [] => 0
  | c :: rest =>
    if c = '\x00' then 0
    else if c = '"' || c = '\n' || c = '\x0B' || c = '\x0C' then 1
    else if c = '\\' then
      match rest with
      | [] => 1
      | d :: rest2 =>
        if d = '"' || d = '\\' || d = 'n' || d = 't' then
          2 + lexLocStringTok rest2
        else if isHexDigit d then
          match rest2 with
          | [] => 1
          | e :: rest3 =>
            if isHexDigit e then 3 + lexLocStringTok rest3 else 1
        else 1
    else 1 + lexLocStringTok rest

/-- The identifier-character predicate of `convertTokenLocToRange`:
`isalnum(c) || c == '_' || identifierChars.contains(c)`. -/
def isIdentifierChar (identifierChars : List Char) (c : Char) : Bool :=
  c.isAlphanum || c = '_' || identifierChars.contains c

/-- The identifier loop of `convertTokenLocToRange`
(`while (*curPtr && isIdentifierChar(*(++curPtr))) continue;`), as the number
of characters the pointer advances: stop on the NUL terminator; otherwise
advance once and continue while the newly pointed-to character is an
identifier character.  The end of the list stands for the NUL terminator. -/
def identWalk (identifierChars : List Char) : List Char → Nat
  | [] => 0
  | c :: rest =>
    if c = '\x00' then 0
    else
      match rest with
      | [] => 1
      | d :: _ =>
        if isIdentifierChar identifierChars d then
          1 + identWalk identifierChars rest
        else 1

/-- An `SMLoc` is a possibly-null pointer, modelled as an optional position
in the buffer; `SMRange` is a pair of such locations, default-constructed as
two invalid ones. -/
structure SMRange where
  rangeStart : Option Nat
  rangeEnd : Option Nat
deriving DecidableEq, Repr

/-- The default-constructed `SMRange()`: both locations invalid. -/
def SMRange.empty : SMRange := ⟨none, none⟩

/-- `lsp::convertTokenLocToRange` (SourceMgrUtils.cpp:48-69): an invalid
location yields `SMRange()`; a location at a `"` lexes a string token;
otherwise the identifier loop runs.  The buffer is passed explicitly, since
the C++ code reads it through the location's pointer. -/
def convertTokenLocToRange (buf : List Char) (loc : Option Nat)
    (identifierChars : List Char) : SMRange :=
  match loc with
  | none => SMRange.empty
  | some p =>
    if charAt buf p = '"' then
      ⟨some p, some (p + 1 + lexLocStringTok (buf.drop (p + 1)))⟩
    else
      ⟨some p, some (p + identWalk identifierChars (buf.drop p))⟩

/-- One non-main buffer of the source manager, abstracted to what
`gatherIncludeFiles` inspects: whether its include location is valid and
contained in the main file, the result of `URIForFile::fromFile` on its
(absolutized) path (`none` models the error case), and the range data the
pushed include would carry. -/
structure BufDesc where
  includedByMain : Bool
  fromFile : Option Nat
  range : Nat × Nat
deriving DecidableEq, Repr

/-- `lsp::gatherIncludeFiles` (SourceMgrUtils.cpp:134-177), over the
non-main buffers in order: a buffer not included by the main file is skipped
(`continue`); a failing `URIForFile::fromFile` has its error consumed by
`handleAllErrors` and the buffer is skipped (`continue`); otherwise the
include is pushed. -/
def gatherIncludeFiles (bufs : List BufDesc) : List (Nat × Nat × Nat) :=
  bufs.filterMap fun b =>
    if !b.includedByMain then none
    else
      match b.fromFile with
      | none => none
      | some uri => some (uri, b.range)

end SourceMgrUtils

namespace CDM

/-- Characterization of `LowerSymbolOperand` on a global-address operand:
the symbol is resolved, the recorded offset is accumulated into the unsigned
32-bit `Offset`, and an expression is always produced — the
`assert(Offset > 0)` guards an unsigned quantity already known to be nonzero,
so the fatal branch is unreachable. -/
theorem LowerSymbolOperand_global (g : Nat) (off : Int) (Offset : Nat) :
    LowerSymbolOperand (.GlobalSymbolRef g off) Offset =
      some (.expr (if uintAdd Offset off = 0 then .symbolRef g
        else .add (.symbolRef g) (.const (uintAdd Offset off : Int)))) := by
  unfold LowerSymbolOperand
  by_cases h : uintAdd Offset off = 0 <;>
    simp [h, Nat.pos_of_ne_zero]

/-- Characterization of `LowerSymbolOperand` on a basic-block operand: the
block's label symbol is used and the incoming `Offset` is not modified. -/
theorem LowerSymbolOperand_bb (b : Nat) (Offset : Nat) :
    LowerSymbolOperand (.BasicBlockRef b) Offset =
      some (.expr (if Offset = 0 then .symbolRef b
        else .add (.symbolRef b) (.const (Offset : Int)))) := by
  unfold LowerSymbolOperand
  by_cases h : Offset = 0 <;> simp [h, Nat.pos_of_ne_zero]

/-- A handled operand never aborts in `LowerOperand`. -/
theorem LowerOperand_isSome_of_isHandled (MO : MachineOperand) (off : Nat)
    (h : MO.isHandled = true) : ∃ o, LowerOperand MO off = some o := by
  cases MO with
  | Register r => exact ⟨_, rfl⟩
  | Immediate v => exact ⟨_, rfl⟩
  | RegisterMask => exact ⟨_, rfl⟩
  | BasicBlockRef b => exact ⟨_, LowerSymbolOperand_bb b off⟩
  | GlobalSymbolRef g o => exact ⟨_, LowerSymbolOperand_global g o off⟩
  | FrameIndex s o => simp [MachineOperand.isHandled] at h

/-- The operand produced for a non-mask handled operand is valid. -/
theorem LowerOperand_valid (MO : MachineOperand) (off : Nat) (o : MCOperand)
    (h : LowerOperand MO off = some o) (hm : MO.isRegMask = false) :
    o.isValid = true := by
  cases MO with
  | Register r => cases h; rfl
  | Immediate v => cases h; rfl
  | RegisterMask => simp [MachineOperand.isRegMask] at hm
  | BasicBlockRef b =>
    rw [show LowerOperand (.BasicBlockRef b) off =
          LowerSymbolOperand (.BasicBlockRef b) off from rfl,
        LowerSymbolOperand_bb] at h
    cases h; rfl
  | GlobalSymbolRef g v =>
    rw [show LowerOperand (.GlobalSymbolRef g v) off =
          LowerSymbolOperand (.GlobalSymbolRef g v) off from rfl,
        LowerSymbolOperand_global] at h
    cases h; rfl
  | FrameIndex s v => cases h

/-- When every operand is of a handled kind, the operand loop of `Lower`
succeeds and returns, in order, the valid results of lowering each operand. -/
theorem lowerOperands_eq_filterMap (ops : List MachineOperand)
    (h : ∀ MO ∈ ops, MO.isHandled = true) :
    lowerOperands ops = some (ops.filterMap
      (fun MO => Option.filter MCOperand.isValid (LowerOperand MO 0))) := by
  induction ops with
  | nil => rfl
  | cons MO rest ih =>
    obtain ⟨o, ho⟩ := LowerOperand_isSome_of_isHandled MO 0
      (h MO (List.mem_cons_self MO rest))
    have hrest := ih fun x hx => h x (List.mem_cons_of_mem MO hx)
    unfold lowerOperands
    rw [ho, hrest, List.filterMap_cons, ho]
    by_cases hv : o.isValid <;> simp [Option.filter, hv]

/-- A successful operand loop never aborted: each operand lowers to some
result. -/
theorem lowerOperands_some_of_mem (ops : List MachineOperand)
    (res : List MCOperand) (h : lowerOperands ops = some res)
    (MO : MachineOperand) (hm : MO ∈ ops) :
    ∃ o, LowerOperand MO 0 = some o := by
  induction ops generalizing res with
  | nil => cases hm
  | cons hd tl ih =>
    unfold lowerOperands at h
    cases hL : LowerOperand hd 0 with
    | none => rw [hL] at h; cases h
    | some o =>
      rw [hL] at h
      cases hR : lowerOperands tl with
      | none => rw [hR] at h; cases h
      | some tail =>
        cases hm with
        | head => exact ⟨o, hL⟩
        | tail _ hmem => exact ih tail hR hmem

/-- C1: the claim says a global-symbol operand with negative recorded offset
takes the fatal path — in particular addend −1 aborts with no expression.
The code disagrees: `Offset` has C++ type `unsigned int`, so the addend −1
wraps to `4294967295`, the `assert(Offset > 0)` inside `if (Offset)` is
vacuously true, and lowering yields the expression `symbol + 4294967295` —
both at `LowerSymbolOperand` and through a full `Lower` of an instruction
carrying the operand. -/
theorem c1_negative_addend_yields_expression :
    LowerSymbolOperand (.GlobalSymbolRef 0 (-1)) 0 =
      some (.expr (.add (.symbolRef 0) (.const 4294967295))) ∧
    Lower ⟨1, [.GlobalSymbolRef 0 (-1)]⟩ =
      some ⟨1, [.expr (.add (.symbolRef 0) (.const 4294967295))]⟩ := by
  constructor <;> decide

/-- C3: for every machine instruction all of whose operands are of the kinds
handled by this stage, `Lower` produces an emittable instruction with the
same opcode whose operand list is the in-order image of the input operands
under individual translation (register operands become physical-register
references, immediates become immediate values). -/
theorem c3_lower_opcode_and_ordered_translation (MI : MachineInstr)
    (h : ∀ MO ∈ MI.operands, MO.isHandled = true) :
    ∃ out, Lower MI = some out ∧ out.opcode = MI.opcode ∧
      out.operands = MI.operands.filterMap
        (fun MO => Option.filter MCOperand.isValid (LowerOperand MO 0)) ∧
      (∀ r, LowerOperand (.Register r) 0 = some (.reg r)) ∧
      (∀ v, LowerOperand (.Immediate v) 0 = some (.imm v)) := by
  refine ⟨⟨MI.opcode, MI.operands.filterMap
    (fun MO => Option.filter MCOperand.isValid (LowerOperand MO 0))⟩,
    ?_, rfl, rfl, fun r => rfl, fun v => rfl⟩
  unfold Lower
  rw [lowerOperands_eq_filterMap MI.operands h]

/-- Witness for C3 at a concrete instruction with one operand of each
handled kind. -/
theorem c3_lower_opcode_and_ordered_translation_witness :
    (∀ MO ∈ (⟨7, [.Register 1, .Immediate (-2), .RegisterMask,
        .BasicBlockRef 3, .GlobalSymbolRef 4 5]⟩ : MachineInstr).operands,
      MO.isHandled = true) ∧
    (∃ out, Lower ⟨7, [.Register 1, .Immediate (-2), .RegisterMask,
        .BasicBlockRef 3, .GlobalSymbolRef 4 5]⟩ = some out ∧
      out.opcode = 7 ∧
      out.operands = [MachineOperand.Register 1, .Immediate (-2),
        .RegisterMask, .BasicBlockRef 3, .GlobalSymbolRef 4 5].filterMap
        (fun MO => Option.filter MCOperand.isValid (LowerOperand MO 0)) ∧
      (∀ r, LowerOperand (.Register r) 0 = some (.reg r)) ∧
      (∀ v, LowerOperand (.Immediate v) 0 = some (.imm v))) :=
  ⟨by decide, c3_lower_opcode_and_ordered_translation _ (by decide)⟩

/-- A successful operand loop keeps exactly the non-register-mask operands,
in order, each translated by `LowerOperand`. -/
theorem lowerOperands_drops_regmask (ops : List MachineOperand)
    (res : List MCOperand) (h : lowerOperands ops = some res) :
    res = (ops.filter fun MO => !MO.isRegMask).filterMap
      (fun MO => LowerOperand MO 0) := by
  induction ops generalizing res with
  | nil => cases h; rfl
  | cons hd tl ih =>
    unfold lowerOperands at h
    cases hL : LowerOperand hd 0 with
    | none => rw [hL] at h; cases h
    | some o =>
      rw [hL] at h
      cases hR : lowerOperands tl with
      | none => rw [hR] at h; cases h
      | some tail =>
        rw [hR] at h
        cases h
        cases hm : hd.isRegMask with
        | true =>
          have hreg : hd = .RegisterMask := by
            cases hd <;> first | rfl | simp [MachineOperand.isRegMask] at hm
          subst hreg
          cases hL
          rw [List.filter_cons_of_neg (by simp [MachineOperand.isRegMask])]
          simpa [MCOperand.isValid] using ih tail hR
        | false =>
          have hv : o.isValid = true := LowerOperand_valid hd 0 o hL hm
          rw [List.filter_cons_of_pos (by simp [hm]),
            List.filterMap_cons, hL]
          simp only [hv, if_true]
          rw [ih tail hR]

/-- C4: a successful lowering drops exactly the `RegisterMask` operands: the
output operand list is the in-order translation of the non-mask input
operands, and no invalid (dropped) operand remains in the output. -/
theorem c4_regmask_dropped_rest_preserved (MI : MachineInstr) (out : MCInst)
    (h : Lower MI = some out) :
    out.operands = (MI.operands.filter fun MO => !MO.isRegMask).filterMap
      (fun MO => LowerOperand MO 0) ∧
    ∀ o ∈ out.operands, o.isValid = true := by
  have hops : lowerOperands MI.operands = some out.operands := by
    unfold Lower at h
    cases hE : lowerOperands MI.operands with
    | none => rw [hE] at h; cases h
    | some l => rw [hE] at h; cases h; rfl
  have heq := lowerOperands_drops_regmask MI.operands out.operands hops
  refine ⟨heq, fun o ho => ?_⟩
  rw [heq] at ho
  obtain ⟨MO, hMO, hlow⟩ := List.mem_filterMap.mp ho
  obtain ⟨-, hmask⟩ := List.mem_filter.mp hMO
  exact LowerOperand_valid MO 0 o hlow (by simpa using hmask)

/-- Witness for C4 at a concrete instruction containing a register mask. -/
theorem c4_regmask_dropped_rest_preserved_witness :
    Lower ⟨9, [.Register 1, .RegisterMask, .Immediate 5]⟩ =
      some ⟨9, [.reg 1, .imm 5]⟩ ∧
    ((⟨9, [.reg 1, .imm 5]⟩ : MCInst).operands =
      ([.Register 1, .RegisterMask, .Immediate 5].filter
        fun MO => !MO.isRegMask).filterMap (fun MO => LowerOperand MO 0) ∧
    ∀ o ∈ (⟨9, [.reg 1, .imm 5]⟩ : MCInst).operands, o.isValid = true) :=
  ⟨by decide, c4_regmask_dropped_rest_preserved
    ⟨9, [.Register 1, .RegisterMask, .Immediate 5]⟩
    ⟨9, [.reg 1, .imm 5]⟩ (by decide)⟩

/-- C6 counterexample: the addend `2 ^ 32` is positive, yet lowering it does
not produce `symbol + 2 ^ 32` — the 64-bit recorded offset is accumulated
into an `unsigned int`, so it wraps to `0` and a bare symbol expression is
produced. -/
theorem c6_counterexample_large_positive_addend :
    (0 : Int) < 4294967296 ∧
    LowerSymbolOperand (.GlobalSymbolRef 0 4294967296) 0 =
      some (.expr (.symbolRef 0)) ∧
    LowerSymbolOperand (.GlobalSymbolRef 0 4294967296) 0 ≠
      some (.expr (.add (.symbolRef 0) (.const 4294967296))) := by
  refine ⟨by decide, by decide, by decide⟩

/-- C6 (amended): lowering a global-symbol operand with addend 0 yields a
bare symbol expression; addend 5 yields `symbol + 5`; and for every positive
addend `n` below `2 ^ 32` (the range that survives the accumulation into the
unsigned 32-bit `Offset` unchanged) the result is `symbol + n`. -/
theorem c6_amended_positive_addend (s : Nat) :
    LowerSymbolOperand (.GlobalSymbolRef s 0) 0 =
      some (.expr (.symbolRef s)) ∧
    LowerSymbolOperand (.GlobalSymbolRef s 5) 0 =
      some (.expr (.add (.symbolRef s) (.const 5))) ∧
    ∀ n : Int, 0 < n → n < 4294967296 →
      LowerSymbolOperand (.GlobalSymbolRef s n) 0 =
        some (.expr (.add (.symbolRef s) (.const n))) := by
  refine ⟨?_, ?_, ?_⟩
  · rw [LowerSymbolOperand_global]
    norm_num [uintAdd]
  · rw [LowerSymbolOperand_global]
    norm_num [uintAdd]
  · intro n h1 h2
    have h0 : uintAdd 0 n = n.toNat := by
      unfold uintAdd
      have hz : ((0 : Nat) : Int) + n = n := by push_cast; ring
      rw [hz, Int.emod_eq_of_lt h1.le h2]
    rw [LowerSymbolOperand_global, h0]
    have hne : n.toNat ≠ 0 := by omega
    simp [hne, Int.toNat_of_nonneg h1.le]

/-- Witness for C6 (amended) at addend 3. -/
theorem c6_amended_positive_addend_witness :
    (0 : Int) < 3 ∧ (3 : Int) < 4294967296 ∧
    LowerSymbolOperand (.GlobalSymbolRef 2 3) 0 =
      some (.expr (.add (.symbolRef 2) (.const 3))) :=
  ⟨by decide, by decide,
    (c6_amended_positive_addend 2).2.2 3 (by decide) (by decide)⟩

/-- C7: operand lowering aborts (`llvm_unreachable`) exactly on the operand
kinds outside {Register, Immediate, RegisterMask, BasicBlockRef,
GlobalSymbolRef} — in this data model, exactly the `FrameIndex` kind — and
symbol resolution's own `default` aborts exactly on the kinds that are
neither basic-block references nor global addresses. -/
theorem c7_unreachable_iff_unhandled_kind :
    (∀ (MO : MachineOperand) (off : Nat),
      LowerOperand MO off = none ↔ ∃ s o, MO = .FrameIndex s o) ∧
    (∀ (MO : MachineOperand) (off : Nat),
      LowerSymbolOperand MO off = none ↔ MO.isSymbolKind = false) := by
  constructor
  · intro MO off
    cases MO <;>
      simp [LowerOperand, LowerSymbolOperand_bb, LowerSymbolOperand_global]
  · intro MO off
    cases MO with
    | BasicBlockRef b => simp [LowerSymbolOperand_bb, MachineOperand.isSymbolKind]
    | GlobalSymbolRef g o =>
      simp [LowerSymbolOperand_global, MachineOperand.isSymbolKind]
    | Register r => simp [LowerSymbolOperand, MachineOperand.isSymbolKind]
    | Immediate v => simp [LowerSymbolOperand, MachineOperand.isSymbolKind]
    | FrameIndex s o => simp [LowerSymbolOperand, MachineOperand.isSymbolKind]
    | RegisterMask => simp [LowerSymbolOperand, MachineOperand.isSymbolKind]

/-- A basic-block operand among the inputs of a successful operand loop
contributes its bare label symbol to the output. -/
theorem lowerOperands_bb_mem (ops : List MachineOperand)
    (res : List MCOperand) (h : lowerOperands ops = some res) (l : Nat)
    (hm : MachineOperand.BasicBlockRef l ∈ ops) :
    MCOperand.expr (.symbolRef l) ∈ res := by
  induction ops generalizing res with
  | nil => cases hm
  | cons hd tl ih =>
    unfold lowerOperands at h
    cases hL : LowerOperand hd 0 with
    | none => rw [hL] at h; cases h
    | some o =>
      rw [hL] at h
      cases hR : lowerOperands tl with
      | none => rw [hR] at h; cases h
      | some tail =>
        rw [hR] at h
        cases h
        cases hm with
        | head =>
          have : o = MCOperand.expr (.symbolRef l) := by
            rw [show LowerOperand (.BasicBlockRef l) 0 =
                LowerSymbolOperand (.BasicBlockRef l) 0 from rfl,
              LowerSymbolOperand_bb] at hL
            simpa using hL.symm
          subst this
          simp [MCOperand.isValid]
        | tail _ hmem =>
          have htail := ih tail hR hmem
          by_cases hv : o.isValid <;> simp [hv, htail]

/-- C9: every basic-block operand of a successfully lowered instruction
appears in the output as a bare label-symbol expression with no addend, and
operand lowering at the initial offset 0 (the default argument `Lower` uses)
maps it to exactly that expression. -/
theorem c9_bb_lowered_to_bare_symbol (MI : MachineInstr) (out : MCInst)
    (h : Lower MI = some out) (l : Nat)
    (hm : MachineOperand.BasicBlockRef l ∈ MI.operands) :
    MCOperand.expr (.symbolRef l) ∈ out.operands ∧
    LowerOperand (.BasicBlockRef l) 0 = some (.expr (.symbolRef l)) := by
  have hops : lowerOperands MI.operands = some out.operands := by
    unfold Lower at h
    cases hE : lowerOperands MI.operands with
    | none => rw [hE] at h; cases h
    | some lres => rw [hE] at h; cases h; rfl
  refine ⟨lowerOperands_bb_mem MI.operands out.operands hops l hm, ?_⟩
  rw [show LowerOperand (.BasicBlockRef l) 0 =
      LowerSymbolOperand (.BasicBlockRef l) 0 from rfl,
    LowerSymbolOperand_bb]
  simp

/-- Witness for C9 at a concrete branch instruction. -/
theorem c9_bb_lowered_to_bare_symbol_witness :
    Lower ⟨3, [.BasicBlockRef 4, .Immediate 1]⟩ =
      some ⟨3, [.expr (.symbolRef 4), .imm 1]⟩ ∧
    MachineOperand.BasicBlockRef 4 ∈
      (⟨3, [.BasicBlockRef 4, .Immediate 1]⟩ : MachineInstr).operands ∧
    (MCOperand.expr (.symbolRef 4) ∈
      (⟨3, [.expr (.symbolRef 4), .imm 1]⟩ : MCInst).operands ∧
    LowerOperand (.BasicBlockRef 4) 0 = some (.expr (.symbolRef 4))) :=
  ⟨by decide, by decide,
    c9_bb_lowered_to_bare_symbol ⟨3, [.BasicBlockRef 4, .Immediate 1]⟩
      ⟨3, [.expr (.symbolRef 4), .imm 1]⟩ (by decide) 4 (by decide)⟩

/-- C5: `eliminateCallFramePseudoInstr` deletes exactly the pointed-to
instruction: the block shrinks by exactly one, and the remaining
instructions are the ones before and after the deleted one, unchanged and
in order (so nothing is inserted as a replacement). -/
theorem c5_call_frame_pseudo_deleted (MBB : List MachineInstr) (i : Nat)
    (h : i < MBB.length) :
    (eliminateCallFramePseudoInstr MBB i).1.length + 1 = MBB.length ∧
    (eliminateCallFramePseudoInstr MBB i).1 =
      MBB.take i ++ MBB.drop (i + 1) := by
  refine ⟨?_, ?_⟩
  · exact List.length_eraseIdx_add_one h
  · exact List.eraseIdx_eq_take_drop_succ MBB i

/-- Witness for C5 at a three-instruction block. -/
theorem c5_call_frame_pseudo_deleted_witness :
    (1 : Nat) < ([⟨1, []⟩, ⟨2, []⟩, ⟨3, []⟩] : List MachineInstr).length ∧
    ((eliminateCallFramePseudoInstr [⟨1, []⟩, ⟨2, []⟩, ⟨3, []⟩] 1).1.length + 1 =
      ([⟨1, []⟩, ⟨2, []⟩, ⟨3, []⟩] : List MachineInstr).length ∧
    (eliminateCallFramePseudoInstr [⟨1, []⟩, ⟨2, []⟩, ⟨3, []⟩] 1).1 =
      ([⟨1, []⟩, ⟨2, []⟩, ⟨3, []⟩] : List MachineInstr).take 1 ++
        ([⟨1, []⟩, ⟨2, []⟩, ⟨3, []⟩] : List MachineInstr).drop 2) :=
  ⟨by decide, c5_call_frame_pseudo_deleted [⟨1, []⟩, ⟨2, []⟩, ⟨3, []⟩] 1
    (by decide)⟩

/-- Replacing an operand deeper in the list commutes with `cons`. -/
theorem spliceOperands_cons (hd : MachineOperand) (tl : List MachineOperand)
    (i : Nat) (newOps : List MachineOperand) :
    spliceOperands (hd :: tl) (i + 1) newOps =
      hd :: spliceOperands tl i newOps := by
  simp [spliceOperands]

/-- The two operands written in place of the frame index are found at the
frame-index operand's position and the one after it. -/
theorem spliceOperands_get_pair (a b : MachineOperand) :
    ∀ (ops : List MachineOperand) (i : Nat), i < ops.length →
      (spliceOperands ops i [a, b]).get? i = some a ∧
      (spliceOperands ops i [a, b]).get? (i + 1) = some b := by
  intro ops
  induction ops with
  | nil => intro i h; simp at h
  | cons hd tl ih =>
    intro i h
    cases i with
    | zero => simp [spliceOperands]
    | succ j =>
      rw [spliceOperands_cons]
      simpa using ih j (by simpa using h)

/-- The effective address of a rewritten `Register + Immediate` operand
pair. -/
theorem effAddr_spliceOperands (regVal : Nat → Int)
    (ops : List MachineOperand) (i : Nat) (r : Nat) (v : Int)
    (h : i < ops.length) :
    effAddr regVal (spliceOperands ops i [.Register r, .Immediate v]) i =
      some (regVal r + v) := by
  obtain ⟨h1, h2⟩ := spliceOperands_get_pair (.Register r) (.Immediate v) ops i h
  unfold effAddr
  rw [h1, h2]

/-- C2: for a machine instruction whose operand `FIOperandNum` is
`FrameIndex(slot, offset)`, frame-index elimination with concrete offset
`frame_layout[slot] + offset + SPAdj` in the encodable immediate range
produces exactly one instruction whose operand is rewritten to
`Register(frame base) + Immediate(concrete)`, denoting the effective address
`frame base value + concrete`; out of range, it produces exactly one
materialization instruction immediately before the rewritten instruction,
and after executing it the rewritten operand denotes the same effective
address. -/
theorem c2_eliminateFrameIndex_rewrite (FC : FrameContext)
    (MI : MachineInstr) (i : Nat) (SPAdj : Int) (slot : Nat) (off : Int)
    (regVal : Nat → Int)
    (h : MI.operands.get? i = some (.FrameIndex slot off)) :
    (inImmRange FC (FC.frameLayout slot + off + SPAdj) = true →
      eliminateFrameIndex FC MI i SPAdj =
        [⟨MI.opcode, spliceOperands MI.operands i
          [.Register FC.frameBase,
           .Immediate (FC.frameLayout slot + off + SPAdj)]⟩] ∧
      effAddr regVal
        (spliceOperands MI.operands i
          [.Register FC.frameBase,
           .Immediate (FC.frameLayout slot + off + SPAdj)]) i =
        some (regVal FC.frameBase + (FC.frameLayout slot + off + SPAdj))) ∧
    (inImmRange FC (FC.frameLayout slot + off + SPAdj) = false →
      ∃ mat MI2, eliminateFrameIndex FC MI i SPAdj = [mat, MI2] ∧
        MI2.opcode = MI.opcode ∧
        effAddr (stepAddrMat FC regVal mat) MI2.operands i =
          some (regVal FC.frameBase + (FC.frameLayout slot + off + SPAdj))) := by
  have hlt : i < MI.operands.length := by
    rcases List.get?_eq_some.mp h with ⟨hl, -⟩
    exact hl
  constructor
  · intro hin
    unfold eliminateFrameIndex
    rw [h]
    simp only [hin, if_true]
    exact ⟨by simp, effAddr_spliceOperands regVal MI.operands i FC.frameBase
      (FC.frameLayout slot + off + SPAdj) hlt⟩
  · intro hin
    unfold eliminateFrameIndex
    rw [h]
    simp only [hin, Bool.false_eq_true, if_false]
    refine ⟨_, _, rfl, rfl, ?_⟩
    rw [effAddr_spliceOperands _ MI.operands i FC.scratchReg 0 hlt]
    simp [stepAddrMat]

/-- Witness for C2 exercising the in-range branch at a concrete frame. -/
theorem c2_eliminateFrameIndex_rewrite_witness :
    (⟨5, [.FrameIndex 0 2, .Immediate 7]⟩ : MachineInstr).operands.get? 0 =
      some (.FrameIndex 0 2) ∧
    ((inImmRange ⟨fun _ => 4, 30, -128, 127, 9, 99⟩ ((4 : Int) + 2 + 1) = true →
      eliminateFrameIndex ⟨fun _ => 4, 30, -128, 127, 9, 99⟩
          ⟨5, [.FrameIndex 0 2, .Immediate 7]⟩ 0 1 =
        [⟨5, spliceOperands [.FrameIndex 0 2, .Immediate 7] 0
          [.Register 30, .Immediate ((4 : Int) + 2 + 1)]⟩] ∧
      effAddr (fun _ => 100)
        (spliceOperands [.FrameIndex 0 2, .Immediate 7] 0
          [.Register 30, .Immediate ((4 : Int) + 2 + 1)]) 0 =
        some ((100 : Int) + ((4 : Int) + 2 + 1))) ∧
    (inImmRange ⟨fun _ => 4, 30, -128, 127, 9, 99⟩ ((4 : Int) + 2 + 1) = false →
      ∃ mat MI2, eliminateFrameIndex ⟨fun _ => 4, 30, -128, 127, 9, 99⟩
          ⟨5, [.FrameIndex 0 2, .Immediate 7]⟩ 0 1 = [mat, MI2] ∧
        MI2.opcode = 5 ∧
        effAddr (stepAddrMat ⟨fun _ => 4, 30, -128, 127, 9, 99⟩
            (fun _ => 100) mat) MI2.operands 0 =
          some ((100 : Int) + ((4 : Int) + 2 + 1)))) :=
  ⟨rfl, c2_eliminateFrameIndex_rewrite ⟨fun _ => 4, 30, -128, 127, 9, 99⟩
    ⟨5, [.FrameIndex 0 2, .Immediate 7]⟩ 0 1 0 2 (fun _ => 100) rfl⟩

end CDM

namespace SourceMgrUtils

/-- C8: a buffer whose file URI cannot be built is skipped — its error is
consumed and gathering continues — so the gathered includes are exactly
those of the remaining buffers: the failure neither aborts the gathering
nor drops any other include. -/
theorem c8_failed_uri_skipped (pre post : List BufDesc) (bad : BufDesc)
    (h : bad.fromFile = none) :
    gatherIncludeFiles (pre ++ bad :: post) =
      gatherIncludeFiles pre ++ gatherIncludeFiles post := by
  unfold gatherIncludeFiles
  rw [List.filterMap_append, List.filterMap_cons]
  cases hb : bad.includedByMain <;> simp [h, hb]

/-- Witness for C8: one failing buffer between two processed ones. -/
theorem c8_failed_uri_skipped_witness :
    (⟨true, none, (5, 6)⟩ : BufDesc).fromFile = none ∧
    gatherIncludeFiles
        ([⟨true, some 3, (0, 1)⟩] ++ ⟨true, none, (5, 6)⟩ ::
          [⟨true, some 4, (2, 3)⟩, ⟨false, some 9, (7, 8)⟩]) =
      gatherIncludeFiles [⟨true, some 3, (0, 1)⟩] ++
        gatherIncludeFiles [⟨true, some 4, (2, 3)⟩, ⟨false, some 9, (7, 8)⟩] :=
  ⟨rfl, c8_failed_uri_skipped [⟨true, some 3, (0, 1)⟩]
    [⟨true, some 4, (2, 3)⟩, ⟨false, some 9, (7, 8)⟩]
    ⟨true, none, (5, 6)⟩ rfl⟩

/-- C10: on an invalid location `convertTokenLocToRange` returns the
default-constructed empty range whatever the identifier characters are, and
it never consults the buffer — the result is the same for any two buffers
and identifier-character sets, so the location's pointer is dereferenced
only when the location is valid. -/
theorem c10_invalid_loc_empty_range (buf buf2 ic ic2 : List Char) :
    convertTokenLocToRange buf none ic = SMRange.empty ∧
    convertTokenLocToRange buf none ic = convertTokenLocToRange buf2 none ic2 :=
  ⟨rfl, rfl⟩

end SourceMgrUtils
